import Mathlib

/-!
Shallow embedding of the adversarial-robustness notebook
`intro_deep_learning/3_adv_interp_attention.ipynb`.

Tensors are modelled as rational-valued functions over an index type;
the automatic-differentiation library (forward pass, backward pass) is an
external collaborator and is modelled as a pure gradient oracle carried by
a `Classifier` record, while the classifier's mutable state (parameters and
accumulated gradient buffers) is threaded explicitly through each call.
-/

namespace Adv

/-- Element-wise `torch.clamp(v, lo, hi) = min(max(v, lo), hi)`. -/
def clamp (v lo hi : ℚ) : ℚ := min (max v lo) hi

/-- Element-wise `torch.sign`: `+1` on positives, `-1` on negatives, `0` at zero. -/
def sign (v : ℚ) : ℚ := if 0 < v then 1 else if v < 0 then -1 else 0

/-- The external classifier-plus-loss collaborator.  `ι` indexes the elements of
an image batch, `P` is the parameter space, `Y` the label-batch type and `G` the
type of the accumulated gradient buffers.

* `inputGrad p x y` is the gradient of the loss `J(model_p(x), y)` with respect
  to the input batch `x` (what `loss.backward()` deposits in `x_adv.grad`);
* `paramGrad p x y` is what the same backward pass deposits in the parameter
  gradient buffers;
* `zeroGrad` is the cleared buffer state produced by `model.zero_grad()`;
* `accumGrad` is the accumulation `backward` performs on the current buffers. -/
structure Classifier (ι P Y G : Type) where
  inputGrad : P → (ι → ℚ) → Y → ι → ℚ
  paramGrad : P → (ι → ℚ) → Y → G
  zeroGrad : G
  accumGrad : G → G → G

/-- The classifier's mutable state: its parameters and its transient
parameter-gradient buffers. -/
structure ModelState (P G : Type) where
  params : P
  gradBuf : G

/-- `FGSMAttack` from the notebook: a model together with the perturbation
budget `epsilon`.  The loss function is folded into the gradient oracles of
`Classifier`. -/
structure FGSMAttack (ι P Y G : Type) where
  model : Classifier ι P Y G
  epsilon : ℚ

/-- `FGSMAttack.perturb(x, y)`:

    x_adv = x.clone().detach().requires_grad_(True)
    outputs = self.model(x_adv); loss = self.loss_fn(outputs, y)
    self.model.zero_grad(); loss.backward()
    grad_sign = x_adv.grad.data.sign()
    x_adv = x_adv + self.epsilon * grad_sign
    x_adv = torch.clamp(x_adv, 0, 1)
    return x_adv

The clone/detach makes the values at which the gradient is taken equal to `x`;
`zero_grad` followed by `backward` leaves `accumGrad zeroGrad (paramGrad …)` in
the classifier's buffers.  All tensor operations used are out-of-place, so `x`
and `y` are pure inputs. -/
def FGSMAttack.perturb {ι P Y G : Type} (A : FGSMAttack ι P Y G)
    (s : ModelState P G) (x : ι → ℚ) (y : Y) : (ι → ℚ) × ModelState P G :=
  let grad := A.model.inputGrad s.params x y
  let gradSign := fun i => sign (grad i)
  (fun i => clamp (x i + A.epsilon * gradSign i) 0 1,
   ⟨s.params, A.model.accumGrad A.model.zeroGrad (A.model.paramGrad s.params x y)⟩)

/-- `BIMAttack` from the notebook: model, budget `epsilon`, step size `alpha`,
iteration count `iters`. -/
structure BIMAttack (ι P Y G : Type) where
  model : Classifier ι P Y G
  epsilon : ℚ
  alpha : ℚ
  iters : ℕ

/-- One iteration of the `BIMAttack.perturb` loop, acting on the pair of the
current adversarial batch and the classifier state:

    x_adv.requires_grad = True
    outputs = self.model(x_adv); loss = self.loss_fn(outputs, y)
    self.model.zero_grad(); loss.backward()
    grad_sign = x_adv.grad.data.sign()
    x_adv = x_adv + self.alpha * grad_sign
    perturbation = torch.clamp(x_adv - x, min=-self.epsilon, max=self.epsilon)
    x_adv = torch.clamp(x + perturbation, 0, 1).detach()

The trailing `detach` is what makes each iteration a fresh forward/backward
pass from the current values, i.e. a pure function of the current pair. -/
def BIMAttack.step {ι P Y G : Type} (A : BIMAttack ι P Y G) (x : ι → ℚ) (y : Y)
    (cur : (ι → ℚ) × ModelState P G) : (ι → ℚ) × ModelState P G :=
  let xadv := cur.1
  let s := cur.2
  let grad := A.model.inputGrad s.params xadv y
  (fun i =>
      let stepped := xadv i + A.alpha * sign (grad i)
      let perturbation := clamp (stepped - x i) (-A.epsilon) A.epsilon
      clamp (x i + perturbation) 0 1,
   ⟨s.params, A.model.accumGrad A.model.zeroGrad (A.model.paramGrad s.params xadv y)⟩)

/-- `BIMAttack.perturb(x, y)`: starting from `x_adv = x.clone().detach()`,
run `BIMAttack.step` for `iters` iterations. -/
def BIMAttack.perturb {ι P Y G : Type} (A : BIMAttack ι P Y G)
    (s : ModelState P G) (x : ι → ℚ) (y : Y) : (ι → ℚ) × ModelState P G :=
  (A.step x y)^[A.iters] (x, s)

/-- An input image for GradCAM: its spatial shape (`input_image.shape[2:]`)
and its pixel values (batch and channel dimensions of size 1). -/
structure Image where
  height : ℕ
  width : ℕ
  pix : ℕ → ℕ → ℚ

/-- The external model seen by `GradCAM`: the shape of the designated layer's
output (`channels × fh × fw`), whether the designated `target_layer` is
actually executed by the model's forward/backward pass (a wrong layer
reference never fires the registered hooks), and the two capture oracles:
`actOf img` is the layer's forward output on `img`, and `gradOf img c` is the
gradient of the scalar score `output[0, c]` (the target class' score only, not
a total loss) with respect to the layer's output. -/
structure GradCAMModel where
  channels : ℕ
  fh : ℕ
  fw : ℕ
  layerExecuted : Bool
  actOf : Image → ℕ → ℕ → ℕ → ℚ
  gradOf : Image → ℕ → ℕ → ℕ → ℕ → ℚ

/-- The capture state written by the hooks `GradCAM._register_hooks` installs:
`self.activations` and `self.gradients`, both `None` until the designated
layer is first executed. -/
structure GradCAMState where
  activations : Option (ℕ → ℕ → ℕ → ℚ)
  gradients : Option (ℕ → ℕ → ℕ → ℚ)

/-- The freshly constructed `GradCAM` capture state (`self.gradients = None`,
`self.activations = None`). -/
def GradCAMState.init : GradCAMState := ⟨none, none⟩

/-- `self.gradients.mean(dim=[2, 3], keepdim=True)` for one channel: the mean
of a spatial `h × w` slice. -/
def spatialMean (h w : ℕ) (g : ℕ → ℕ → ℚ) : ℚ :=
  (∑ i ∈ Finset.range h, ∑ j ∈ Finset.range w, g i j) / ((h : ℚ) * (w : ℚ))

/-- Source coordinate used by `F.interpolate(…, mode='bilinear',
align_corners=False)`: `max 0 (scale * (dst + 0.5) - 0.5)` with
`scale = inSize / outSize`. -/
def sourceIndex (inSize outSize : ℕ) (j : ℕ) : ℚ :=
  max 0 ((inSize : ℚ) * ((j : ℚ) + 1 / 2) / (outSize : ℚ) - 1 / 2)

/-- `F.interpolate(m, size=(hOut, wOut), mode='bilinear',
align_corners=False)` on a single-channel `hIn × wIn` map: each output pixel
is the bilinear blend of the four neighbouring input pixels around its source
coordinate, with the high neighbour collapsed onto the low one at the border. -/
def interpolateBilinear (hIn wIn hOut wOut : ℕ) (m : ℕ → ℕ → ℚ) :
    ℕ → ℕ → ℚ :=
  fun i j =>
    let si := sourceIndex hIn hOut i
    let sj := sourceIndex wIn wOut j
    let i0 := (⌊si⌋).toNat
    let j0 := (⌊sj⌋).toNat
    let i1 := if i0 + 1 < hIn then i0 + 1 else i0
    let j1 := if j0 + 1 < wIn then j0 + 1 else j0
    let li := si - (i0 : ℚ)
    let lj := sj - (j0 : ℚ)
    (1 - li) * ((1 - lj) * m i0 j0 + lj * m i0 j1) +
      li * ((1 - lj) * m i1 j0 + lj * m i1 j1)

/-- `grad_cam_map.min()` over an `H × W` map.  The `(0, 0)` seed only makes the
fold total; for the nonempty maps the notebook uses (`H, W ≥ 1`) the seed is
itself an entry of the map, so this is exactly the minimum over all entries. -/
def mapMin (H W : ℕ) (m : ℕ → ℕ → ℚ) : ℚ :=
  (insert ((0 : ℕ), (0 : ℕ)) (Finset.range H ×ˢ Finset.range W)).inf'
    (Finset.insert_nonempty _ _) fun p => m p.1 p.2

/-- `grad_cam_map.max()` over an `H × W` map, with the same `(0, 0)` seed as
`mapMin`. -/
def mapMax (H W : ℕ) (m : ℕ → ℕ → ℚ) : ℚ :=
  (insert ((0 : ℕ), (0 : ℕ)) (Finset.range H ×ˢ Finset.range W)).sup'
    (Finset.insert_nonempty _ _) fun p => m p.1 p.2

/-- The capture state after `generate`'s own `output = self.model(input_image)`
and `loss.backward(retain_graph=True)`: when the designated layer is executed
by the pass, both hooks fire and overwrite the captures; otherwise the state
is untouched. -/
def GradCAM.captureAfterPass (M : GradCAMModel) (st : GradCAMState)
    (img : Image) (targetClass : ℕ) : GradCAMState :=
  if M.layerExecuted then ⟨some (M.actOf img), some (M.gradOf img targetClass)⟩
  else st

/-- `GradCAM.generate(input_image, target_class)`:

    self.model.zero_grad()
    output = self.model(input_image)
    loss = output[0, target_class]
    loss.backward(retain_graph=True)
    weights = self.gradients.mean(dim=[2, 3], keepdim=True)
    grad_cam_map = torch.sum(weights * self.activations, dim=1, keepdim=True)
    grad_cam_map = F.relu(grad_cam_map)
    grad_cam_map = F.interpolate(grad_cam_map, size=input_image.shape[2:],
                                 mode='bilinear', align_corners=False)
    grad_cam_map = (grad_cam_map - grad_cam_map.min()) /
                   (grad_cam_map.max() - grad_cam_map.min() + 1e-8)
    return grad_cam_map

Reading `self.gradients` / `self.activations` while they are still `None`
raises (`NoneType` has no `mean`), modelled as `Except.error`. -/
def GradCAM.generate (M : GradCAMModel) (st : GradCAMState) (img : Image)
    (targetClass : ℕ) : Except String (ℕ → ℕ → ℚ) × GradCAMState :=
  let st1 := GradCAM.captureAfterPass M st img targetClass
  match st1.gradients, st1.activations with
  | some grads, some acts =>
      let weights := fun c => spatialMean M.fh M.fw (grads c)
      let gradCamMap := fun i j =>
        ∑ c ∈ Finset.range M.channels, weights c * acts c i j
      let rectified := fun i j => max (gradCamMap i j) 0
      let resized := interpolateBilinear M.fh M.fw img.height img.width rectified
      let lo := mapMin img.height img.width resized
      let hi := mapMax img.height img.width resized
      (Except.ok (fun i j => (resized i j - lo) / (hi - lo + 1 / 100000000)), st1)
  | _, _ => (Except.error "GradCAM capture data unavailable", st1)

/-- Reference activation-map algorithm, written from the specification's step
list: per-channel importance weights are the spatial average (mean over height
and width) of the captured gradient; the map is the weighted sum over channels
of weight times captured activation; negative values are clamped to zero; the
map is resized by smooth (bilinear) interpolation to the input's spatial
resolution; and the result is normalized to [0,1] via
(map - min) / (max - min + stability constant). -/
def gradCamReference (C fh fw H W : ℕ) (grads acts : ℕ → ℕ → ℕ → ℚ) :
    ℕ → ℕ → ℚ :=
  let weight : ℕ → ℚ := fun c =>
    (∑ i ∈ Finset.range fh, ∑ j ∈ Finset.range fw, grads c i j) /
      ((fh : ℚ) * (fw : ℚ))
  let weighted : ℕ → ℕ → ℚ := fun i j =>
    ∑ c ∈ Finset.range C, weight c * acts c i j
  let rectified : ℕ → ℕ → ℚ := fun i j => max (weighted i j) 0
  let resized := interpolateBilinear fh fw H W rectified
  fun i j =>
    (resized i j - mapMin H W resized) /
      (mapMax H W resized - mapMin H W resized + 1 / 100000000)

/-- Index type of the specification's end-to-end scenario: a 1×1×4×4 image
batch. -/
abbrev Idx4 : Type := Fin 1 × Fin 1 × Fin 4 × Fin 4

/-- The known fixed sign pattern of the scenario classifier's input gradient:
zero on the diagonal, alternating plus/minus one elsewhere. -/
def signPattern : Fin 4 → Fin 4 → ℚ := fun i j =>
  if i = j then 0 else if (i.val + j.val) % 2 = 0 then 1 else -1

/-- A concrete classifier whose input-gradient sign is `signPattern`:
its input gradient is three times the pattern at every input, its parameter
space and gradient buffers are trivial. -/
def scenarioClassifier : Classifier Idx4 Unit ℕ Unit where
  inputGrad := fun _ _ _ p => 3 * signPattern p.2.2.1 p.2.2.2
  paramGrad := fun _ _ _ => ()
  zeroGrad := ()
  accumGrad := fun _ _ => ()

/-- The scenario classifier's initial state. -/
def scenarioState : ModelState Unit Unit := ⟨(), ()⟩

/-- The all-0.5-valued 1×1×4×4 image batch of the end-to-end scenario. -/
def x05 : Idx4 → ℚ := fun _ => 1 / 2

/-- An out-of-range image batch (every pixel 7), used to exercise the
unconditional output clamp. -/
def x7 : Idx4 → ℚ := fun _ => 7

/-- A concrete 1×1 input image for the GradCAM scenarios. -/
def tinyImage : Image := ⟨1, 1, fun _ _ => 1 / 2⟩

/-- A concrete GradCAM model whose designated layer is executed by the
forward/backward pass: one channel, 1×1 feature map, constant activation 2 and
constant gradient 3. -/
def tinyCAMModel : GradCAMModel := ⟨1, 1, 1, true, fun _ _ _ _ => 2, fun _ _ _ _ _ => 3⟩

/-- The same model with a wrong layer reference: the designated layer is never
executed, so the capture hooks never fire. -/
def deadCAMModel : GradCAMModel := ⟨1, 1, 1, false, fun _ _ _ _ => 2, fun _ _ _ _ _ => 3⟩

/-- A GradCAM model whose captured gradient is uniformly zero. -/
def zeroGradCAMModel : GradCAMModel :=
  ⟨1, 1, 1, true, fun _ _ _ _ => 2, fun _ _ _ _ _ => 0⟩

/-- The map produced by `GradCAM.generate` on the tiny scenario. -/
def tinyRes : ℕ → ℕ → ℚ :=
  ((GradCAM.generate tinyCAMModel GradCAMState.init tinyImage 0).1.toOption).getD
    fun _ _ => 0

/-- The map produced by `GradCAM.generate` on the zero-gradient scenario. -/
def zeroRes : ℕ → ℕ → ℚ :=
  ((GradCAM.generate zeroGradCAMModel GradCAMState.init tinyImage 0).1.toOption).getD
    fun _ _ => 0

/-- Clamping lands in the clamping interval whenever that interval is
nonempty. -/
lemma clamp_mem_Icc (v lo hi : ℚ) (h : lo ≤ hi) :
    lo ≤ clamp v lo hi ∧ clamp v lo hi ≤ hi :=
  ⟨le_min (le_max_right v lo) h, min_le_right _ _⟩

/-- Clamping fixes any value already inside the interval. -/
lemma clamp_of_mem (v lo hi : ℚ) (h1 : lo ≤ v) (h2 : v ≤ hi) :
    clamp v lo hi = v := by
  simp [clamp, max_eq_left h1, min_eq_left h2]

/-- The sign of a rational has absolute value at most one. -/
lemma abs_sign_le_one (v : ℚ) : |sign v| ≤ 1 := by
  unfold sign
  split_ifs <;> simp

/-- The sign of a rational is at least minus one. -/
lemma neg_one_le_sign (v : ℚ) : -1 ≤ sign v := by
  unfold sign
  split_ifs <;> norm_num

/-- The sign of a rational is at most one. -/
lemma sign_le_one (v : ℚ) : sign v ≤ 1 := by
  unfold sign
  split_ifs <;> norm_num

/-- Clamping to [0,1] never moves a value further from a point of [0,1] than
it already was: the projection onto [0,1] fixes `xi` and contracts
distances. -/
lemma clamp01_abs_sub (xi u ε : ℚ) (hx0 : 0 ≤ xi) (hx1 : xi ≤ 1)
    (hu : |u - xi| ≤ ε) : |clamp u 0 1 - xi| ≤ ε := by
  have hε : 0 ≤ ε := le_trans (abs_nonneg _) hu
  rw [abs_le] at hu ⊢
  obtain ⟨h1, h2⟩ := hu
  unfold clamp
  constructor
  · have hm : xi - ε ≤ max u 0 := le_trans (by linarith) (le_max_left u 0)
    have hmin : xi - ε ≤ min (max u 0) 1 := le_min hm (by linarith)
    linarith
  · have hm : min (max u 0) 1 ≤ xi + ε := by
      rcases le_total u 0 with h | h
      · calc min (max u 0) 1 ≤ max u 0 := min_le_left _ _
          _ = 0 := max_eq_right h
          _ ≤ xi + ε := by linarith
      · calc min (max u 0) 1 ≤ max u 0 := min_le_left _ _
          _ = u := max_eq_left h
          _ ≤ xi + ε := by linarith
    linarith

/-- One BIM iteration keeps the budget bound and the pixel range, for any
current pair whatsoever: the projection onto the ε-ball followed by the
projection onto [0,1] enforces both unconditionally. -/
lemma bim_step_mem {ι P Y G : Type} (A : BIMAttack ι P Y G) (x : ι → ℚ) (y : Y)
    (hε : 0 ≤ A.epsilon) (hx : ∀ i, 0 ≤ x i ∧ x i ≤ 1)
    (cur : (ι → ℚ) × ModelState P G) (i : ι) :
    |(A.step x y cur).1 i - x i| ≤ A.epsilon ∧
      0 ≤ (A.step x y cur).1 i ∧ (A.step x y cur).1 i ≤ 1 := by
  have hlohi : -A.epsilon ≤ A.epsilon := by linarith
  set v := cur.1 i + A.alpha * sign (A.model.inputGrad cur.2.params cur.1 y i) - x i with hv
  have hpert := clamp_mem_Icc v (-A.epsilon) A.epsilon hlohi
  have hshape : (A.step x y cur).1 i =
      clamp (x i + clamp v (-A.epsilon) A.epsilon) 0 1 := rfl
  rw [hshape]
  have habs : |x i + clamp v (-A.epsilon) A.epsilon - x i| ≤ A.epsilon := by
    rw [abs_le]
    constructor <;> linarith [hpert.1, hpert.2]
  refine ⟨clamp01_abs_sub (x i) _ A.epsilon (hx i).1 (hx i).2 habs, ?_, ?_⟩
  · exact le_min (le_max_right _ _) zero_le_one
  · exact min_le_right _ _

/-- Every BIM iterate (from the cloned input) keeps the budget bound and the
pixel range. -/
lemma bim_iterate_mem {ι P Y G : Type} (A : BIMAttack ι P Y G)
    (s : ModelState P G) (x : ι → ℚ) (y : Y)
    (hε : 0 ≤ A.epsilon) (hx : ∀ i, 0 ≤ x i ∧ x i ≤ 1) (k : ℕ) (i : ι) :
    |((A.step x y)^[k] (x, s)).1 i - x i| ≤ A.epsilon ∧
      0 ≤ ((A.step x y)^[k] (x, s)).1 i ∧ ((A.step x y)^[k] (x, s)).1 i ≤ 1 := by
  cases k with
  | zero =>
      simpa using ⟨hε, hx i⟩
  | succ k =>
      rw [Function.iterate_succ_apply']
      exact bim_step_mem A x y hε hx _ i

/-- BIM iterations never touch the classifier's parameters. -/
lemma bim_iterate_params {ι P Y G : Type} (A : BIMAttack ι P Y G)
    (x : ι → ℚ) (y : Y) (k : ℕ) (cur : (ι → ℚ) × ModelState P G) :
    ((A.step x y)^[k] cur).2.params = cur.2.params := by
  induction k generalizing cur with
  | zero => rfl
  | succ k ih =>
      rw [Function.iterate_succ_apply]
      exact ih (A.step x y cur)

/-- Every in-range position of an `H × W` map is in the index set underlying
`mapMin` and `mapMax`. -/
lemma mem_mapIndexSet {H W i j : ℕ} (hi : i < H) (hj : j < W) :
    (i, j) ∈ insert ((0 : ℕ), (0 : ℕ)) (Finset.range H ×ˢ Finset.range W) :=
  Finset.mem_insert_of_mem
    (Finset.mem_product.mpr ⟨Finset.mem_range.mpr hi, Finset.mem_range.mpr hj⟩)

/-- `mapMin` bounds every in-range entry from below. -/
lemma mapMin_le {H W : ℕ} (m : ℕ → ℕ → ℚ) {i j : ℕ} (hi : i < H) (hj : j < W) :
    mapMin H W m ≤ m i j := by
  rw [mapMin, Finset.inf'_le_iff]
  exact ⟨(i, j), mem_mapIndexSet hi hj, le_rfl⟩

/-- `mapMax` bounds every in-range entry from above. -/
lemma le_mapMax {H W : ℕ} (m : ℕ → ℕ → ℚ) {i j : ℕ} (hi : i < H) (hj : j < W) :
    m i j ≤ mapMax H W m := by
  rw [mapMax, Finset.le_sup'_iff]
  exact ⟨(i, j), mem_mapIndexSet hi hj, le_rfl⟩

/-- The minimum of a map never exceeds its maximum. -/
lemma mapMin_le_mapMax (H W : ℕ) (m : ℕ → ℕ → ℚ) :
    mapMin H W m ≤ mapMax H W m := by
  rw [mapMin, Finset.inf'_le_iff]
  refine ⟨(0, 0), Finset.mem_insert_self _ _, ?_⟩
  rw [mapMax, Finset.le_sup'_iff]
  exact ⟨(0, 0), Finset.mem_insert_self _ _, le_rfl⟩

/-- The stabilized normalization `(v - min) / (max - min + 1e-8)` keeps every
in-range entry of any map inside [0,1]. -/
lemma normalized_mem (H W : ℕ) (m : ℕ → ℕ → ℚ) (i j : ℕ)
    (hi : i < H) (hj : j < W) :
    0 ≤ (m i j - mapMin H W m) /
        (mapMax H W m - mapMin H W m + 1 / 100000000) ∧
      (m i j - mapMin H W m) /
        (mapMax H W m - mapMin H W m + 1 / 100000000) ≤ 1 := by
  have hlo := mapMin_le m hi hj
  have hhi := le_mapMax m hi hj
  have hpos : 0 < mapMax H W m - mapMin H W m + 1 / 100000000 := by
    have := mapMin_le_mapMax H W m
    linarith
  constructor
  · exact div_nonneg (by linarith) (le_of_lt hpos)
  · rw [div_le_one hpos]
    linarith

/-- Bilinear interpolation of the everywhere-zero map is everywhere zero. -/
lemma interpolateBilinear_zero (hIn wIn hOut wOut : ℕ) (m : ℕ → ℕ → ℚ)
    (hm : ∀ i j, m i j = 0) (i j : ℕ) :
    interpolateBilinear hIn wIn hOut wOut m i j = 0 := by
  unfold interpolateBilinear
  simp [hm]

/-- The minimum of the everywhere-zero map is zero. -/
lemma mapMin_zero (H W : ℕ) (m : ℕ → ℕ → ℚ) (hm : ∀ i j, m i j = 0) :
    mapMin H W m = 0 := by
  unfold mapMin
  refine le_antisymm ?_ ?_
  · rw [Finset.inf'_le_iff]
    exact ⟨(0, 0), Finset.mem_insert_self _ _, le_of_eq (hm 0 0)⟩
  · rw [Finset.le_inf'_iff]
    exact fun b _ => le_of_eq (hm b.1 b.2).symm

/-- The maximum of the everywhere-zero map is zero. -/
lemma mapMax_zero (H W : ℕ) (m : ℕ → ℕ → ℚ) (hm : ∀ i j, m i j = 0) :
    mapMax H W m = 0 := by
  unfold mapMax
  refine le_antisymm ?_ ?_
  · rw [Finset.sup'_le_iff]
    exact fun b _ => le_of_eq (hm b.1 b.2)
  · rw [Finset.le_sup'_iff]
    exact ⟨(0, 0), Finset.mem_insert_self _ _, le_of_eq (hm 0 0).symm⟩

/-- Every in-range value of the reference activation map lies in [0,1]. -/
lemma gradCamReference_mem (C fh fw H W : ℕ) (grads acts : ℕ → ℕ → ℕ → ℚ)
    (i j : ℕ) (hi : i < H) (hj : j < W) :
    0 ≤ gradCamReference C fh fw H W grads acts i j ∧
      gradCamReference C fh fw H W grads acts i j ≤ 1 :=
  normalized_mem H W _ i j hi hj

/-- If the captured gradient vanishes on the whole feature map, the reference
activation map is the zero map. -/
lemma gradCamReference_zero (C fh fw H W : ℕ) (grads acts : ℕ → ℕ → ℕ → ℚ)
    (hg : ∀ c i j, c < C → i < fh → j < fw → grads c i j = 0) (i j : ℕ) :
    gradCamReference C fh fw H W grads acts i j = 0 := by
  unfold gradCamReference
  have hw : ∀ c, c ∈ Finset.range C →
      (∑ a ∈ Finset.range fh, ∑ b ∈ Finset.range fw, grads c a b) /
        ((fh : ℚ) * (fw : ℚ)) = 0 := by
    intro c hc
    have hsum : (∑ a ∈ Finset.range fh, ∑ b ∈ Finset.range fw, grads c a b) = 0 := by
      refine Finset.sum_eq_zero fun a ha => Finset.sum_eq_zero fun b hb => ?_
      exact hg c a b (Finset.mem_range.mp hc) (Finset.mem_range.mp ha)
        (Finset.mem_range.mp hb)
    rw [hsum, zero_div]
  have hrect : ∀ a b,
      max (∑ c ∈ Finset.range C,
        (∑ a ∈ Finset.range fh, ∑ b ∈ Finset.range fw, grads c a b) /
          ((fh : ℚ) * (fw : ℚ)) * acts c a b) 0 = 0 := by
    intro a b
    have : (∑ c ∈ Finset.range C,
        (∑ a ∈ Finset.range fh, ∑ b ∈ Finset.range fw, grads c a b) /
          ((fh : ℚ) * (fw : ℚ)) * acts c a b) = 0 := by
      refine Finset.sum_eq_zero fun c hc => ?_
      rw [hw c hc, zero_mul]
    rw [this, max_self]
  have hres : ∀ a b, interpolateBilinear fh fw H W
      (fun a b => max (∑ c ∈ Finset.range C,
        (∑ a ∈ Finset.range fh, ∑ b ∈ Finset.range fw, grads c a b) /
          ((fh : ℚ) * (fw : ℚ)) * acts c a b) 0) a b = 0 :=
    interpolateBilinear_zero fh fw H W _ fun a b => hrect a b
  simp only []
  rw [hres i j, mapMin_zero H W _ hres, mapMax_zero H W _ hres]
  norm_num

/-- A successful `GradCAM.generate` call returns exactly the reference
activation map computed from the captured gradient and activation. -/
lemma generate_ok_shape (M : GradCAMModel) (st : GradCAMState) (img : Image)
    (t : ℕ) (res : ℕ → ℕ → ℚ)
    (hok : (GradCAM.generate M st img t).1 = Except.ok res) :
    ∃ grads acts,
      (GradCAM.captureAfterPass M st img t).gradients = some grads ∧
      (GradCAM.captureAfterPass M st img t).activations = some acts ∧
      res = gradCamReference M.channels M.fh M.fw img.height img.width grads acts := by
  unfold GradCAM.generate at hok
  rcases hg : (GradCAM.captureAfterPass M st img t).gradients with _ | grads <;>
    rcases ha : (GradCAM.captureAfterPass M st img t).activations with _ | acts <;>
      simp only [hg, ha] at hok
  · exact Except.noConfusion hok
  · exact Except.noConfusion hok
  · exact Except.noConfusion hok
  · exact ⟨grads, acts, rfl, rfl, (Except.ok.inj hok).symm⟩

/-- C5: every value of a successfully generated activation map lies in [0,1];
and if the captured gradient at the designated layer is uniformly zero, the
returned map is exactly the zero map (no division failure), because the
normalization divides by (max - min + 1e-8) rather than (max - min). -/
theorem gradcam_map_range_and_zero (M : GradCAMModel) (st : GradCAMState)
    (img : Image) (t : ℕ) (res : ℕ → ℕ → ℚ)
    (hok : (GradCAM.generate M st img t).1 = Except.ok res) :
    (∀ i j, i < img.height → j < img.width → 0 ≤ res i j ∧ res i j ≤ 1) ∧
    (∀ grads, (GradCAM.captureAfterPass M st img t).gradients = some grads →
      (∀ c i j, c < M.channels → i < M.fh → j < M.fw → grads c i j = 0) →
      ∀ i j, i < img.height → j < img.width → res i j = 0) := by
  obtain ⟨grads, acts, hg, ha, rfl⟩ := generate_ok_shape M st img t res hok
  constructor
  · intro i j hi hj
    exact gradCamReference_mem M.channels M.fh M.fw img.height img.width
      grads acts i j hi hj
  · intro grads' hg' hz i j hi hj
    rw [hg] at hg'
    obtain rfl := Option.some.inj hg'
    exact gradCamReference_zero M.channels M.fh M.fw img.height img.width
      grads acts hz i j

/-- Witness for the activation-map theorem: a concrete one-channel model with
uniformly zero captured gradient, on a 1×1 image; its third component checks
the map really is zero at the origin. -/
theorem gradcam_map_range_and_zero_witness :
    ((GradCAM.generate zeroGradCAMModel GradCAMState.init tinyImage 0).1 =
        Except.ok zeroRes) ∧
      ((∀ i j, i < tinyImage.height → j < tinyImage.width →
          0 ≤ zeroRes i j ∧ zeroRes i j ≤ 1) ∧
        (∀ grads,
            (GradCAM.captureAfterPass zeroGradCAMModel GradCAMState.init
              tinyImage 0).gradients = some grads →
            (∀ c i j, c < zeroGradCAMModel.channels → i < zeroGradCAMModel.fh →
              j < zeroGradCAMModel.fw → grads c i j = 0) →
            ∀ i j, i < tinyImage.height → j < tinyImage.width →
              zeroRes i j = 0)) ∧
      zeroRes 0 0 = 0 :=
  ⟨rfl,
   gradcam_map_range_and_zero zeroGradCAMModel GradCAMState.init tinyImage 0
     zeroRes rfl,
   (gradcam_map_range_and_zero zeroGradCAMModel GradCAMState.init tinyImage 0
       zeroRes rfl).2 (fun _ _ _ => 0) rfl (fun _ _ _ _ _ _ => rfl) 0 0
     Nat.one_pos Nat.one_pos⟩

/-- C6: on a pass that executes the designated layer, `GradCAM.generate`
returns exactly the specification's reference composition — spatial-mean
weights, channel-weighted sum, rectification, bilinear resize to the input
resolution, stabilized normalization — applied to the captured activation and
gradient tensors (the gradient being that of the target class' score only,
which is what the capture oracle records). -/
theorem gradcam_generate_eq_reference (M : GradCAMModel) (st : GradCAMState)
    (img : Image) (t : ℕ) (hex : M.layerExecuted = true) :
    (GradCAM.generate M st img t).1 =
      Except.ok (gradCamReference M.channels M.fh M.fw img.height img.width
        (M.gradOf img t) (M.actOf img)) := by
  unfold GradCAM.generate GradCAM.captureAfterPass
  rw [hex]
  rfl

/-- Witness for the reference-composition theorem at a concrete executed
model. -/
theorem gradcam_generate_eq_reference_witness :
    tinyCAMModel.layerExecuted = true ∧
      (GradCAM.generate tinyCAMModel GradCAMState.init tinyImage 0).1 =
        Except.ok (gradCamReference tinyCAMModel.channels tinyCAMModel.fh
          tinyCAMModel.fw tinyImage.height tinyImage.width
          (tinyCAMModel.gradOf tinyImage 0) (tinyCAMModel.actOf tinyImage)) :=
  ⟨rfl, gradcam_generate_eq_reference tinyCAMModel GradCAMState.init tinyImage 0 rfl⟩

/-- C7: if the designated layer was never executed and nothing was ever
captured, `GradCAM.generate` surfaces a data-unavailable error to the caller
instead of silently returning a zero map; conversely, when the designated
layer is executed by the forward/backward pass, the call succeeds. -/
theorem gradcam_capture_error (M : GradCAMModel) (st : GradCAMState)
    (img : Image) (t : ℕ) :
    (M.layerExecuted = false → st.gradients = none →
      (GradCAM.generate M st img t).1 =
        Except.error ("GradCAM capture data unavailable")) ∧
    (M.layerExecuted = true →
      ∃ m, (GradCAM.generate M st img t).1 = Except.ok m) := by
  constructor
  · intro hex hn
    unfold GradCAM.generate GradCAM.captureAfterPass
    rw [hex]
    simp only [Bool.false_eq_true, if_false, hn]
  · intro hex
    unfold GradCAM.generate GradCAM.captureAfterPass
    rw [hex]
    exact ⟨_, rfl⟩

/-- Witness for the capture-error theorem: the never-executed model errors
from the initial capture state, the executed model succeeds. -/
theorem gradcam_capture_error_witness :
    (deadCAMModel.layerExecuted = false ∧ GradCAMState.init.gradients = none ∧
      (GradCAM.generate deadCAMModel GradCAMState.init tinyImage 0).1 =
        Except.error ("GradCAM capture data unavailable")) ∧
    (tinyCAMModel.layerExecuted = true ∧
      ∃ m, (GradCAM.generate tinyCAMModel GradCAMState.init tinyImage 0).1 =
        Except.ok m) :=
  ⟨⟨rfl, rfl,
    (gradcam_capture_error deadCAMModel GradCAMState.init tinyImage 0).1 rfl rfl⟩,
   ⟨rfl,
    (gradcam_capture_error tinyCAMModel GradCAMState.init tinyImage 0).2 rfl⟩⟩

/-- The scenario's sign pattern only takes the values 0, 1, -1. -/
lemma signPattern_cases (i j : Fin 4) :
    signPattern i j = 0 ∨ signPattern i j = 1 ∨ signPattern i j = -1 := by
  unfold signPattern
  split_ifs <;> simp

/-- Taking the sign of three times a value that is already a sign recovers
that value. -/
lemma sign_three_mul (v : ℚ) (h : v = 0 ∨ v = 1 ∨ v = -1) :
    sign (3 * v) = v := by
  rcases h with rfl | rfl | rfl <;> norm_num [sign]

/-- The all-0.5 scenario image lies in [0,1]. -/
lemma x05_mem : ∀ p : Idx4, 0 ≤ x05 p ∧ x05 p ≤ 1 :=
  fun _ => ⟨by simp [x05], half_le_self zero_le_one⟩

/-- C1: the single-step attack returns exactly clip(x + ε·sign(grad), 0, 1),
where grad is the gradient of the loss at the input; and on the 1×1×4×4
all-0.5 scenario with ε = 0.1 and a classifier whose input-gradient sign is
the fixed pattern, the output equals clip(0.5 + 0.1·pattern, 0, 1) exactly. -/
theorem fgsm_formula :
    (∀ (ι P Y G : Type) (cl : Classifier ι P Y G) (ε : ℚ) (s : ModelState P G)
        (x : ι → ℚ) (y : Y) (i : ι),
        (FGSMAttack.perturb ⟨cl, ε⟩ s x y).1 i =
          clamp (x i + ε * sign (cl.inputGrad s.params x y i)) 0 1) ∧
    (∀ p : Idx4,
        (FGSMAttack.perturb ⟨scenarioClassifier, 1 / 10⟩ scenarioState x05 0).1 p =
          clamp (1 / 2 + 1 / 10 * signPattern p.2.2.1 p.2.2.2) 0 1) :=
  ⟨fun _ _ _ _ _ _ _ _ _ _ => rfl,
   fun p => by
    have hshape :
        (FGSMAttack.perturb ⟨scenarioClassifier, 1 / 10⟩ scenarioState x05 0).1 p =
          clamp (x05 p + 1 / 10 * sign (3 * signPattern p.2.2.1 p.2.2.2)) 0 1 := rfl
    have hx : x05 p = 1 / 2 := rfl
    rw [hshape, hx, sign_three_mul _ (signPattern_cases _ _)]⟩

/-- C3: for ε ≥ 0 and inputs in [0,1], the single-step output stays within ε
of the input element-wise and inside [0,1]; with ε = 0 it equals the input
exactly. -/
theorem fgsm_budget_range {ι P Y G : Type} (cl : Classifier ι P Y G) (ε : ℚ)
    (s : ModelState P G) (x : ι → ℚ) (y : Y) (hε : 0 ≤ ε)
    (hx : ∀ i, 0 ≤ x i ∧ x i ≤ 1) :
    (∀ i, |(FGSMAttack.perturb ⟨cl, ε⟩ s x y).1 i - x i| ≤ ε ∧
        0 ≤ (FGSMAttack.perturb ⟨cl, ε⟩ s x y).1 i ∧
        (FGSMAttack.perturb ⟨cl, ε⟩ s x y).1 i ≤ 1) ∧
    (ε = 0 → ∀ i, (FGSMAttack.perturb ⟨cl, ε⟩ s x y).1 i = x i) := by
  constructor
  · intro i
    have hshape : (FGSMAttack.perturb ⟨cl, ε⟩ s x y).1 i =
        clamp (x i + ε * sign (cl.inputGrad s.params x y i)) 0 1 := rfl
    rw [hshape]
    have hdiff : x i + ε * sign (cl.inputGrad s.params x y i) - x i =
        ε * sign (cl.inputGrad s.params x y i) := by ring
    have habs : |x i + ε * sign (cl.inputGrad s.params x y i) - x i| ≤ ε := by
      rw [hdiff, abs_mul, abs_of_nonneg hε]
      exact mul_le_of_le_one_right hε (abs_sign_le_one _)
    refine ⟨clamp01_abs_sub (x i) _ ε (hx i).1 (hx i).2 habs, ?_, ?_⟩
    · exact le_min (le_max_right _ _) zero_le_one
    · exact min_le_right _ _
  · intro h0 i
    subst h0
    have hshape : (FGSMAttack.perturb ⟨cl, (0 : ℚ)⟩ s x y).1 i =
        clamp (x i + 0 * sign (cl.inputGrad s.params x y i)) 0 1 := rfl
    rw [hshape, zero_mul, add_zero]
    exact clamp_of_mem _ 0 1 (hx i).1 (hx i).2

/-- Witness for the single-step budget/range theorem on the concrete
scenario. -/
theorem fgsm_budget_range_witness :
    ((0 : ℚ) ≤ 1 / 10 ∧ (∀ p : Idx4, 0 ≤ x05 p ∧ x05 p ≤ 1)) ∧
    ((∀ p : Idx4,
        |(FGSMAttack.perturb ⟨scenarioClassifier, 1 / 10⟩ scenarioState x05 0).1 p - x05 p| ≤ 1 / 10 ∧
        0 ≤ (FGSMAttack.perturb ⟨scenarioClassifier, 1 / 10⟩ scenarioState x05 0).1 p ∧
        (FGSMAttack.perturb ⟨scenarioClassifier, 1 / 10⟩ scenarioState x05 0).1 p ≤ 1) ∧
      ((1 : ℚ) / 10 = 0 → ∀ p : Idx4,
        (FGSMAttack.perturb ⟨scenarioClassifier, 1 / 10⟩ scenarioState x05 0).1 p = x05 p)) :=
  ⟨⟨by simp, x05_mem⟩,
   fgsm_budget_range scenarioClassifier (1 / 10) scenarioState x05 0
     (by simp) x05_mem⟩

/-- C2: the iterative attack maintains, after every iteration and hence for
its final result, the element-wise invariant |x_adv - x| ≤ ε together with
0 ≤ x_adv ≤ 1, for inputs in [0,1] and ε ≥ 0, α ≥ 0, N ≥ 1. -/
theorem bim_invariant {ι P Y G : Type} (cl : Classifier ι P Y G) (ε α : ℚ)
    (N : ℕ) (s : ModelState P G) (x : ι → ℚ) (y : Y)
    (hε : 0 ≤ ε) (hα : 0 ≤ α) (hN : 1 ≤ N) (hx : ∀ i, 0 ≤ x i ∧ x i ≤ 1) :
    (∀ k i,
        |((BIMAttack.step ⟨cl, ε, α, N⟩ x y)^[k] (x, s)).1 i - x i| ≤ ε ∧
        0 ≤ ((BIMAttack.step ⟨cl, ε, α, N⟩ x y)^[k] (x, s)).1 i ∧
        ((BIMAttack.step ⟨cl, ε, α, N⟩ x y)^[k] (x, s)).1 i ≤ 1) ∧
    (∀ i,
        |(BIMAttack.perturb ⟨cl, ε, α, N⟩ s x y).1 i - x i| ≤ ε ∧
        0 ≤ (BIMAttack.perturb ⟨cl, ε, α, N⟩ s x y).1 i ∧
        (BIMAttack.perturb ⟨cl, ε, α, N⟩ s x y).1 i ≤ 1) :=
  ⟨fun k i => bim_iterate_mem ⟨cl, ε, α, N⟩ s x y hε hx k i,
   fun i => bim_iterate_mem ⟨cl, ε, α, N⟩ s x y hε hx N i⟩

/-- Witness for the iterative invariant theorem on the concrete scenario with
ε = 0.1, α = 0.05, N = 2. -/
theorem bim_invariant_witness :
    ((0 : ℚ) ≤ 1 / 10 ∧ (0 : ℚ) ≤ 1 / 20 ∧ 1 ≤ 2 ∧
      (∀ p : Idx4, 0 ≤ x05 p ∧ x05 p ≤ 1)) ∧
    ((∀ k p,
        |((BIMAttack.step ⟨scenarioClassifier, 1 / 10, 1 / 20, 2⟩ x05 0)^[k]
            (x05, scenarioState)).1 p - x05 p| ≤ 1 / 10 ∧
        0 ≤ ((BIMAttack.step ⟨scenarioClassifier, 1 / 10, 1 / 20, 2⟩ x05 0)^[k]
            (x05, scenarioState)).1 p ∧
        ((BIMAttack.step ⟨scenarioClassifier, 1 / 10, 1 / 20, 2⟩ x05 0)^[k]
            (x05, scenarioState)).1 p ≤ 1) ∧
      (∀ p,
        |(BIMAttack.perturb ⟨scenarioClassifier, 1 / 10, 1 / 20, 2⟩ scenarioState
            x05 0).1 p - x05 p| ≤ 1 / 10 ∧
        0 ≤ (BIMAttack.perturb ⟨scenarioClassifier, 1 / 10, 1 / 20, 2⟩ scenarioState
            x05 0).1 p ∧
        (BIMAttack.perturb ⟨scenarioClassifier, 1 / 10, 1 / 20, 2⟩ scenarioState
            x05 0).1 p ≤ 1)) :=
  ⟨⟨by simp, by simp, by decide, x05_mem⟩,
   bim_invariant scenarioClassifier (1 / 10) (1 / 20) 2 scenarioState x05 0
     (by simp) (by simp) (by decide) x05_mem⟩

/-- C4: the iterative attack run for a single iteration with step size equal
to the budget produces exactly the single-step attack's output, on the same
classifier and loss. -/
theorem bim_single_iteration_eq_fgsm {ι P Y G : Type} (cl : Classifier ι P Y G)
    (ε : ℚ) (s : ModelState P G) (x : ι → ℚ) (y : Y) (hε : 0 ≤ ε) :
    (BIMAttack.perturb ⟨cl, ε, ε, 1⟩ s x y).1 =
      (FGSMAttack.perturb ⟨cl, ε⟩ s x y).1 := by
  funext i
  have hshape : (BIMAttack.perturb ⟨cl, ε, ε, 1⟩ s x y).1 i =
      clamp (x i + clamp (x i + ε * sign (cl.inputGrad s.params x y i) - x i)
        (-ε) ε) 0 1 := rfl
  have hshape2 : (FGSMAttack.perturb ⟨cl, ε⟩ s x y).1 i =
      clamp (x i + ε * sign (cl.inputGrad s.params x y i)) 0 1 := rfl
  rw [hshape, hshape2]
  have hdiff : x i + ε * sign (cl.inputGrad s.params x y i) - x i =
      ε * sign (cl.inputGrad s.params x y i) := by ring
  rw [hdiff]
  have hlow : -ε ≤ ε * sign (cl.inputGrad s.params x y i) := by
    have h := mul_le_mul_of_nonneg_left
      (neg_one_le_sign (cl.inputGrad s.params x y i)) hε
    linarith
  have hhigh : ε * sign (cl.inputGrad s.params x y i) ≤ ε := by
    have h := mul_le_mul_of_nonneg_left
      (sign_le_one (cl.inputGrad s.params x y i)) hε
    linarith
  rw [clamp_of_mem _ _ _ hlow hhigh]

/-- Witness for the single-iteration boundary equivalence at the concrete
scenario. -/
theorem bim_single_iteration_eq_fgsm_witness :
    (0 : ℚ) ≤ 1 / 10 ∧
      (BIMAttack.perturb ⟨scenarioClassifier, 1 / 10, 1 / 10, 1⟩ scenarioState
          x05 0).1 =
        (FGSMAttack.perturb ⟨scenarioClassifier, 1 / 10⟩ scenarioState x05 0).1 :=
  ⟨by simp,
   bim_single_iteration_eq_fgsm scenarioClassifier (1 / 10) scenarioState x05 0
     (by simp)⟩

/-- C8: neither attack touches the classifier's parameters; the only state the
calls change is the transient gradient buffers.  The input and label batches
are pure values of the embedding because every tensor operation the source
applies to them (`clone`, `detach`, `+`, `*`, `clamp`, `sign`) is
out-of-place. -/
theorem perturb_frame :
    (∀ (ι P Y G : Type) (cl : Classifier ι P Y G) (ε : ℚ) (s : ModelState P G)
        (x : ι → ℚ) (y : Y),
        (FGSMAttack.perturb ⟨cl, ε⟩ s x y).2.params = s.params) ∧
    (∀ (ι P Y G : Type) (cl : Classifier ι P Y G) (ε α : ℚ) (N : ℕ)
        (s : ModelState P G) (x : ι → ℚ) (y : Y),
        (BIMAttack.perturb ⟨cl, ε, α, N⟩ s x y).2.params = s.params) :=
  ⟨fun _ _ _ _ _ _ _ _ _ => rfl,
   fun _ _ _ _ cl ε α N s x y => bim_iterate_params ⟨cl, ε, α, N⟩ x y N (x, s)⟩

/-- C9: calling the single-step attack twice with the same inputs, the second
call starting from the state the first call left behind (parameters frozen,
only gradient buffers changed), returns the identical output. -/
theorem fgsm_two_run_determinism :
    ∀ (ι P Y G : Type) (cl : Classifier ι P Y G) (ε : ℚ) (s : ModelState P G)
      (x : ι → ℚ) (y : Y),
      (FGSMAttack.perturb ⟨cl, ε⟩ (FGSMAttack.perturb ⟨cl, ε⟩ s x y).2 x y).1 =
        (FGSMAttack.perturb ⟨cl, ε⟩ s x y).1 :=
  fun _ _ _ _ _ _ _ _ _ => rfl

/-- C10: the final clamp makes every element of both attacks' outputs land in
[0,1] for every input tensor whatsoever — no precondition on x is needed for
the in-range guarantee (for the iterative attack, any N ≥ 1). -/
theorem perturb_range_unconditional :
    (∀ (ι P Y G : Type) (cl : Classifier ι P Y G) (ε : ℚ) (s : ModelState P G)
        (x : ι → ℚ) (y : Y) (i : ι),
        0 ≤ (FGSMAttack.perturb ⟨cl, ε⟩ s x y).1 i ∧
          (FGSMAttack.perturb ⟨cl, ε⟩ s x y).1 i ≤ 1) ∧
    (∀ (ι P Y G : Type) (cl : Classifier ι P Y G) (ε α : ℚ) (N : ℕ),
        1 ≤ N → ∀ (s : ModelState P G) (x : ι → ℚ) (y : Y) (i : ι),
        0 ≤ (BIMAttack.perturb ⟨cl, ε, α, N⟩ s x y).1 i ∧
          (BIMAttack.perturb ⟨cl, ε, α, N⟩ s x y).1 i ≤ 1) := by
  constructor
  · intro ι P Y G cl ε s x y i
    exact ⟨le_min (le_max_right _ _) zero_le_one, min_le_right _ _⟩
  · intro ι P Y G cl ε α N hN s x y i
    obtain ⟨M, rfl⟩ : ∃ M, N = M + 1 :=
      ⟨N - 1, (Nat.succ_pred_eq_of_pos hN).symm⟩
    show 0 ≤ ((BIMAttack.step ⟨cl, ε, α, M + 1⟩ x y)^[M + 1] (x, s)).1 i ∧
      ((BIMAttack.step ⟨cl, ε, α, M + 1⟩ x y)^[M + 1] (x, s)).1 i ≤ 1
    rw [Function.iterate_succ_apply']
    exact ⟨le_min (le_max_right _ _) zero_le_one, min_le_right _ _⟩

/-- Witness for the unconditional range theorem at an out-of-range input
(every pixel 7). -/
theorem perturb_range_unconditional_witness :
    1 ≤ 2 ∧
      (∀ p : Idx4,
        0 ≤ (BIMAttack.perturb ⟨scenarioClassifier, 1 / 10, 1 / 20, 2⟩
            scenarioState x7 0).1 p ∧
          (BIMAttack.perturb ⟨scenarioClassifier, 1 / 10, 1 / 20, 2⟩
            scenarioState x7 0).1 p ≤ 1) :=
  ⟨by decide,
   perturb_range_unconditional.2 Idx4 Unit ℕ Unit scenarioClassifier (1 / 10)
     (1 / 20) 2 (by decide) scenarioState x7 0⟩

end Adv
